import Mathlib

/-! Verification of the teami backend (Node.js API service, SQL schema, worker
surface) against its natural-language specification.  The data model follows
`schema.sql`; the operations are shallow embeddings of the service functions in
`backend/services` and `backend/controllers`.  Timestamps are modelled as
natural numbers, SQL `INTEGER` columns that may go negative as `Int`, and each
table as the list of its rows together with the next value of its serial key. -/

namespace Teami

/-- Row of the `agents` table.  `user_id` is nullable (NULL for the global
System agent, id 0). -/
structure AgentRow where
  id : Nat
  userId : Option Nat
  name : String
  role : String
  description : String
  model : String
deriving DecidableEq

/-- Row of the `projects` table.  `paused BOOLEAN DEFAULT TRUE`,
`message_limit INTEGER DEFAULT 0`. -/
structure ProjectRow where
  id : Nat
  userId : Nat
  title : String
  description : String
  systemPrompt : String
  paused : Bool
  messageLimit : Int
  lastActivityAt : Nat
deriving DecidableEq

/-- Row of the `project_agent_members` table; `can_message_ids` is the
comma-joined string the source stores. -/
structure MemberRow where
  projectId : Nat
  agentId : Nat
  role : String
  prompt : String
  canMessageIds : String
  threadId : Option String
deriving DecidableEq

/-- Row of the `tokens` table; `api_key` holds the encrypted secret. -/
structure TokenRow where
  id : Nat
  userId : Nat
  name : String
  apiKey : String
  active : Bool
deriving DecidableEq

/-- Row of the `project_tokens` bridge table; `token_id` is nullable
(`ON DELETE SET NULL`). -/
structure ProjectTokenRow where
  projectId : Nat
  tokenId : Option Nat
deriving DecidableEq

/-- Row of the `conversations` table. -/
structure ConvRow where
  id : Nat
  projectId : Nat
  senderId : Nat
  receiverId : Nat
  createdAt : Nat
deriving DecidableEq

/-- Row of the `messages` table. -/
structure MessageRow where
  id : Nat
  conversationId : Nat
  projectId : Nat
  senderId : Nat
  receiverId : Nat
  content : String
  type : String
  status : String
  createdAt : Nat
deriving DecidableEq

/-- Row of the `logs` table. -/
structure LogRow where
  id : Nat
  projectId : Nat
  level : String
  code : Option String
  message : String
deriving DecidableEq

/-- Row of the `agent_history_summaries` table. -/
structure SummaryRow where
  id : Nat
  agentId : Nat
  projectId : Nat
  summary : String
  messageCount : Nat
  summaryCount : Nat
deriving DecidableEq

/-- The relational store of `schema.sql`: one list of rows per table, plus the
next value of each serial primary key. -/
structure DBState where
  agents : List AgentRow
  projects : List ProjectRow
  members : List MemberRow
  tokens : List TokenRow
  projectTokens : List ProjectTokenRow
  conversations : List ConvRow
  messages : List MessageRow
  logs : List LogRow
  summaries : List SummaryRow
  nextAgentId : Nat
  nextProjectId : Nat
  nextConvId : Nat
  nextMessageId : Nat
  nextLogId : Nat
deriving DecidableEq

/-- Events published on the live-update hub by `webSocketService.broadcastToProject`. -/
inductive Event where
  | newMessage (projectId : Nat) (message : MessageRow)
  | messageUpdated (messageId : Nat) (status : String) (conversationId : Nat)
  | projectUpdated (projectId : Nat)
deriving DecidableEq

/-- Primitive SQL statements issued by the budget operations; a transaction is a
list of statements executed atomically. -/
inductive SqlStmt where
  | updateDecrementLimit (projectId : Nat)
  | updateSetPaused (projectId : Nat)
  | insertLog (projectId : Nat) (level : String) (code : Option String) (message : String)
deriving DecidableEq

/-- Embeds `projectService.pauseProjectInternal`: one `db.tx` that sets
`paused = true` for the project, appends a warn log with the supplied machine
code, and broadcasts `project_updated`. -/
def pauseProjectInternal (projectId : Nat) (code message : String) (s : DBState) :
    DBState × List Event :=
  ({ s with
      projects := s.projects.map fun p =>
        if p.id = projectId then { p with paused := true } else p,
      logs := s.logs ++ [⟨s.nextLogId, projectId, "warn", some code, message⟩],
      nextLogId := s.nextLogId + 1 },
   [Event.projectUpdated projectId])

/-- Embeds `settingsService.setMessageLimit`: a single UPDATE of
`message_limit` guarded by ownership, broadcasting `project_updated` on
success.  It never touches `paused`. -/
def setMessageLimit (projectId : Nat) (limit : Int) (userId : Nat) (s : DBState) :
    DBState × List Event × Bool :=
  match s.projects.find? (fun p => p.id == projectId && p.userId == userId) with
  | none => (s, [], false)
  | some _ =>
    ({ s with
        projects := s.projects.map fun p =>
          if p.id = projectId ∧ p.userId = userId then { p with messageLimit := limit } else p },
     [Event.projectUpdated projectId], true)

/-- The log message hard-coded in `settingsService.decrementMessageLimit`. -/
def messageLimitLogText : String :=
  "Project paused automatically after reaching message limit."

/-- Outcome of `settingsService.decrementMessageLimit`: the final store, the
published events, the statements grouped by the transaction they ran in, and
the returned new limit (`none` when the project row was not found). -/
structure DecrementOutcome where
  state : DBState
  events : List Event
  txns : List (List SqlStmt)
  newLimit : Option Int
deriving DecidableEq

/-- Embeds `settingsService.decrementMessageLimit`.  The UPDATE that decrements
`message_limit` is a single-statement implicit transaction; when the new value
is at most 0 the code then calls `pauseProjectInternal`, whose `db.tx`
(set paused + insert warn log with code MESSAGE_LIMIT) is a second, separate
transaction. -/
def decrementMessageLimit (projectId : Nat) (s : DBState) : DecrementOutcome :=
  match s.projects.find? (fun p => p.id == projectId) with
  | none =>
    { state := s, events := [], txns := [[SqlStmt.updateDecrementLimit projectId]],
      newLimit := none }
  | some p =>
    let newLimit := p.messageLimit - 1
    let s1 := { s with
      projects := s.projects.map fun q =>
        if q.id = projectId then { q with messageLimit := q.messageLimit - 1 } else q }
    if newLimit ≤ 0 then
      let (s2, ev2) := pauseProjectInternal projectId "MESSAGE_LIMIT" messageLimitLogText s1
      { state := s2,
        events := [Event.projectUpdated projectId] ++ ev2,
        txns := [[SqlStmt.updateDecrementLimit projectId],
                 [SqlStmt.updateSetPaused projectId,
                  SqlStmt.insertLog projectId "warn" (some "MESSAGE_LIMIT") messageLimitLogText]],
        newLimit := some newLimit }
    else
      { state := s1,
        events := [Event.projectUpdated projectId],
        txns := [[SqlStmt.updateDecrementLimit projectId]],
        newLimit := some newLimit }

/-- Invariant 4 of the specification: an exhausted message budget forces the
paused flag. -/
def budgetPauseInv (s : DBState) : Prop :=
  ∀ p ∈ s.projects, p.messageLimit ≤ 0 → p.paused = true

/-- Outcome of a message send: the final store, the published events, the
projects whose worker was nudged, and the inserted row. -/
structure SendOutcome where
  state : DBState
  events : List Event
  nudges : List Nat
  message : MessageRow
deriving DecidableEq

/-- Embeds `messageService.createMessage`: inside one `db.tx` it inserts the
row (status defaults to pending for user messages and sent otherwise), bumps
the project's `last_activity_at`, broadcasts `new_message`, and nudges the
worker exactly when the inserted row is a pending user message. -/
def createMessage (conversationId projectId senderId receiverId : Nat)
    (content ty : String) (statusOpt : Option String) (now : Nat) (s : DBState) :
    SendOutcome :=
  let status := statusOpt.getD (if ty = "user" then "pending" else "sent")
  let row : MessageRow :=
    ⟨s.nextMessageId, conversationId, projectId, senderId, receiverId, content, ty, status, now⟩
  { state := { s with
      messages := s.messages ++ [row],
      nextMessageId := s.nextMessageId + 1,
      projects := s.projects.map fun p =>
        if p.id = projectId then { p with lastActivityAt := now } else p },
    events := [Event.newMessage projectId row],
    nudges := if status = "pending" ∧ ty = "user" then [projectId] else [],
    message := row }

/-- Embeds `messageService.getConversationParticipants`: looks the conversation
row up by id. -/
def getConversationParticipants (conversationId : Nat) (s : DBState) : Option ConvRow :=
  s.conversations.find? (fun c => c.id == conversationId)

/-- Embeds `messageController.sendMessage`: the sender is always the System
agent (id 0), the receiver is the conversation's `receiver_id` when its
`sender_id` is 0 and its `sender_id` otherwise, and the message type defaults
to user.  Returns `none` when the conversation does not exist. -/
def sendMessage (conversationId : Nat) (content : String) (tyOpt : Option String)
    (now : Nat) (s : DBState) : Option SendOutcome :=
  match getConversationParticipants conversationId s with
  | none => none
  | some c =>
    let receiverId := if c.senderId = 0 then c.receiverId else c.senderId
    some (createMessage conversationId c.projectId 0 receiverId content
      (tyOpt.getD "user") none now s)

/-- An agent definition inlined in a create-project request; `canMessageIds`
are indexes into the request's agents array. -/
structure AgentInput where
  name : String
  role : String
  description : String
  model : String
  prompt : Option String
  canMessageIds : List Nat
deriving DecidableEq

/-- JavaScript string disjunction `a || b` (empty strings are falsy). -/
def jsOrStr (a b : String) : String := if a = "" then b else a

/-- A member entry of the in-memory `memberList` built by
`createProjectWithMembers`. -/
structure MemberSpec where
  agentId : Nat
  role : String
  prompt : String
  canMessageIndexes : List Nat
  threadId : Option String
deriving DecidableEq

/-- The `INSERT ... ON CONFLICT DO NOTHING` on `conversations`: the row is
inserted only when no row with the same `(project_id, sender_id, receiver_id)`
exists. -/
def insertConvNoConflict (projectId senderId receiverId : Nat) (now : Nat)
    (s : DBState) : DBState :=
  if s.conversations.any (fun c =>
      c.projectId == projectId && c.senderId == senderId && c.receiverId == receiverId) then s
  else { s with
    conversations := s.conversations ++ [⟨s.nextConvId, projectId, senderId, receiverId, now⟩],
    nextConvId := s.nextConvId + 1 }

/-- The body of the inner loop of `createProjectWithMembers`: create the
sorted conversation pair for one reachable agent, deduplicating through the
in-memory `createdPairs` set and the `ON CONFLICT DO NOTHING` insert. -/
def processPair (projectId memberId now : Nat) (acc : DBState × List (Nat × Nat))
    (otherId : Nat) : DBState × List (Nat × Nat) :=
  let sid := min memberId otherId
  let rid := max memberId otherId
  if (sid, rid) ∈ acc.2 then acc
  else (insertConvNoConflict projectId sid rid now acc.1, acc.2 ++ [(sid, rid)])

/-- One iteration of the member loop in `createProjectWithMembers`: resolve the
member's `canMessageIds`, insert the membership row, then create the
conversation pairs. -/
def processMember (projectId : Nat) (indexToId : Nat → Option Nat) (now : Nat)
    (acc : DBState × List (Nat × Nat)) (member : MemberSpec) :
    DBState × List (Nat × Nat) :=
  let canMessageIds :=
    (member.canMessageIndexes.filterMap indexToId).filter (· != member.agentId)
  let st1 := { acc.1 with
    members := acc.1.members ++
      [⟨projectId, member.agentId, member.role, member.prompt,
        String.intercalate "," (canMessageIds.map toString), member.threadId⟩] }
  canMessageIds.foldl (processPair projectId member.agentId now) (st1, acc.2)

/-- Embeds `projectService.createProjectWithMembers`: inside one transaction it
rejects duplicate titles, inserts the project (paused, default limit), the
optional token binding, the inlined agents (serial ids), the membership rows
including the implicit System member, and one conversation per unordered
reachable pair. -/
def createProjectWithMembers (userId : Nat) (title description systemPrompt : String)
    (agents : List AgentInput) (tokenId : Option Nat) (now : Nat) (s : DBState) :
    Except String DBState :=
  if s.projects.any (fun p => p.userId == userId && p.title == title) then
    .error "A project with this title already exists."
  else
    let projectId := s.nextProjectId
    let s1 := { s with
      projects := s.projects ++
        [(⟨projectId, userId, title, description, systemPrompt, true, 0, now⟩ : ProjectRow)],
      nextProjectId := s.nextProjectId + 1 }
    let s2 := match tokenId with
      | some tid =>
        { s1 with projectTokens :=
            s1.projectTokens ++ [(⟨projectId, some tid⟩ : ProjectTokenRow)] }
      | none => s1
    let baseId := s2.nextAgentId
    let s3 := { s2 with
      agents := s2.agents ++ (agents.enum.map fun ia =>
        (⟨baseId + ia.1, some userId, ia.2.name, ia.2.role, ia.2.description,
          ia.2.model⟩ : AgentRow)),
      nextAgentId := baseId + agents.length }
    let indexToId : Nat → Option Nat := fun i =>
      if i < agents.length then some (baseId + i) else none
    let memberList : List MemberSpec :=
      (agents.enum.map fun ia =>
        (⟨baseId + ia.1, ia.2.role,
          jsOrStr (ia.2.prompt.getD "") (jsOrStr ia.2.description ""),
          ia.2.canMessageIds, none⟩ : MemberSpec))
      ++ [(⟨0, "system", "System agent: logs, system prompts, and control",
            List.range agents.length, some "system"⟩ : MemberSpec)]
    .ok (memberList.foldl (processMember projectId indexToId now) (s3, [])).1

/-- Embeds `conversationService.createConversation` together with the schema
constraints `CHECK (sender_id <= receiver_id)` and
`UNIQUE (project_id, sender_id, receiver_id)`: the source inserts
`(projectId, userId, receiverId)` unsorted, so a violating insert raises and
the transaction leaves the table unchanged. -/
def createConversation (userId projectId receiverId : Nat) (now : Nat) (s : DBState) :
    Except String (DBState × ConvRow) :=
  if userId ≤ receiverId then
    if s.conversations.any (fun c =>
        c.projectId == projectId && c.senderId == userId && c.receiverId == receiverId) then
      .error "unique violation on conversations"
    else
      let row : ConvRow := ⟨s.nextConvId, projectId, userId, receiverId, now⟩
      let s' := { s with
        conversations := s.conversations ++ [row],
        nextConvId := s.nextConvId + 1 }
      .ok (s', row)
  else .error "check violation: sender exceeds receiver"

/-- Database state after `createProjectWithMembers`, with the transaction
rolled back on error. -/
def runCreateProject (userId : Nat) (title description systemPrompt : String)
    (agents : List AgentInput) (tokenId : Option Nat) (now : Nat) (s : DBState) : DBState :=
  match createProjectWithMembers userId title description systemPrompt agents tokenId now s with
  | .ok s' => s'
  | .error _ => s

/-- Database state after `createConversation`, with the transaction rolled
back on error. -/
def runCreateConversation (userId projectId receiverId : Nat) (now : Nat)
    (s : DBState) : DBState :=
  match createConversation userId projectId receiverId now s with
  | .ok r => r.1
  | .error _ => s

/-- First half of the conversation invariant: every row's pair is sorted. -/
def convPairSorted (s : DBState) : Prop :=
  ∀ c ∈ s.conversations, c.senderId ≤ c.receiverId

/-- Second half of the conversation invariant: no two rows share
`(project_id, sender_id, receiver_id)`. -/
def convPairUnique (s : DBState) : Prop :=
  s.conversations.Pairwise fun a b =>
    ¬(a.projectId = b.projectId ∧ a.senderId = b.senderId ∧ a.receiverId = b.receiverId)

/-- The conversation invariant of the specification. -/
def convInvariant (s : DBState) : Prop := convPairSorted s ∧ convPairUnique s

/-- At most one conversation row per project and unordered participant pair. -/
def atMostOnePerPair (s : DBState) : Prop :=
  ∀ a ∈ s.conversations, ∀ b ∈ s.conversations,
    a.projectId = b.projectId →
    ((a.senderId = b.senderId ∧ a.receiverId = b.receiverId) ∨
     (a.senderId = b.receiverId ∧ a.receiverId = b.senderId)) →
    a = b

/-- The row predicate of the `getPendingMessages` query: same project, status
pending. -/
def isPendingOf (projectId : Nat) (m : MessageRow) : Bool :=
  m.projectId == projectId && m.status == "pending"

/-- Comparison used by `ORDER BY created_at ASC`. -/
def createdLe (a b : MessageRow) : Prop := a.createdAt ≤ b.createdAt

instance : DecidableRel createdLe := fun a b =>
  inferInstanceAs (Decidable (a.createdAt ≤ b.createdAt))

instance : IsTotal MessageRow createdLe := ⟨fun a b => Nat.le_total a.createdAt b.createdAt⟩

instance : IsTrans MessageRow createdLe := ⟨fun _ _ _ => Nat.le_trans⟩

/-- What the SQL of `messageService.getPendingMessages`
(`WHERE project_id AND status ORDER BY created_at ASC`) guarantees about a
returned row list: it holds exactly the project's pending rows, in weakly
ascending `created_at` order.  The query imposes no further ordering. -/
def pendingResultOk (table : List MessageRow) (projectId : Nat)
    (result : List MessageRow) : Prop :=
  result.Perm (table.filter (isPendingOf projectId)) ∧
  result.Pairwise createdLe

/-- An executable refinement of `getPendingMessages`: filter then sort by
`created_at`. -/
def getPendingMessages (projectId : Nat) (s : DBState) : List MessageRow :=
  (s.messages.filter (isPendingOf projectId)).insertionSort createdLe

/-- The demo-protection configuration read from the environment by
`backend/utils/projectLocks.js`. -/
structure DemoConfig where
  demoUserId : Nat
  demoTokenId : Nat
  demoProjectId : Nat
  snapshotProjectId : Nat
  demoProjectLimit : Int
deriving DecidableEq

/-- `projectLocks.isProtectedDemoToken`. -/
def isProtectedDemoToken (cfg : DemoConfig) (userId tokenId : Nat) : Bool :=
  userId == cfg.demoUserId && tokenId == cfg.demoTokenId

/-- Result of the token-delete endpoint. -/
inductive DeleteTokenResult where
  | forbidden
  | inUse
  | notFound
  | deleted
deriving DecidableEq

/-- Embeds `tokenController.deleteToken` composed with
`tokenService.deleteToken`: the controller rejects the protected demo token
first; the service then fails when any `project_tokens` row references the
token, and otherwise deletes the caller's row (reporting not-found when no row
matched). -/
def deleteTokenOp (cfg : DemoConfig) (tokenId userId : Nat) (s : DBState) :
    DeleteTokenResult × DBState :=
  if isProtectedDemoToken cfg userId tokenId then (.forbidden, s)
  else if s.projectTokens.any (fun pt => pt.tokenId == some tokenId) then (.inUse, s)
  else if s.tokens.any (fun t => t.id == tokenId && t.userId == userId) then
    (.deleted,
     { s with tokens := s.tokens.filter (fun t => !(t.id == tokenId && t.userId == userId)) })
  else (.notFound, s)

/-- Hex digit characters used by Node's `hex` encoding. -/
def hexDigit (n : Nat) : Char := "0123456789abcdef".toList.getD n 'f'

/-- Numeric value of a hex digit character. -/
def hexDigitVal (c : Char) : Option Nat :=
  if c = '0' then some 0 else if c = '1' then some 1 else if c = '2' then some 2
  else if c = '3' then some 3 else if c = '4' then some 4 else if c = '5' then some 5
  else if c = '6' then some 6 else if c = '7' then some 7 else if c = '8' then some 8
  else if c = '9' then some 9 else if c = 'a' then some 10 else if c = 'b' then some 11
  else if c = 'c' then some 12 else if c = 'd' then some 13 else if c = 'e' then some 14
  else if c = 'f' then some 15 else none

/-- One byte as two hex characters. -/
def byteToHex (b : Nat) : List Char := [hexDigit (b / 16), hexDigit (b % 16)]

/-- A byte list as a hex character string (Node `Buffer.toString('hex')`). -/
def hexEncode (bs : List Nat) : List Char := (bs.map byteToHex).flatten

/-- Parsing a hex character string back to bytes (Node `Buffer.from(_, 'hex')`). -/
def hexDecode : List Char → Option (List Nat)
  | [] => some []
  | c1 :: c2 :: rest =>
    match hexDigitVal c1, hexDigitVal c2, hexDecode rest with
    | some h, some l, some bs => some ((16 * h + l) :: bs)
    | _, _, _ => none
  | [_] => none

/-- JavaScript `String.split(':')`. -/
def splitOnColon : List Char → List (List Char)
  | [] => [[]]
  | c :: rest =>
    let r := splitOnColon rest
    if c = ':' then [] :: r
    else
      match r with
      | [] => [[c]]
      | h :: t => (c :: h) :: t

/-- Embeds `encrypt` of `backend/utils/auth/encrypt.js`: the ciphertext string
is the random IV hex-encoded, a colon, and the hex-encoded output of the
`aes-256-cbc` cipher.  The library cipher (key fixed to the process key) is
the parameter `E`, taking the IV and the plaintext bytes. -/
def encryptStr (E : List Nat → List Nat → List Nat) (iv : List Nat)
    (text : List Nat) : List Char :=
  hexEncode iv ++ ':' :: hexEncode (E iv text)

/-- Embeds `decrypt` of `backend/utils/auth/encrypt.js`: split on the colon,
hex-decode the IV and the data, and run the library decipher `D`. -/
def decryptStr (D : List Nat → List Nat → List Nat) (cipherText : List Char) :
    Option (List Nat) :=
  match splitOnColon cipherText with
  | ivHex :: data :: _ =>
    match hexDecode ivHex, hexDecode data with
    | some iv, some dataBytes => some (D iv dataBytes)
    | _, _ => none
  | _ => none

/-- PKCS#7 padding to 16-byte blocks, the padding `aes-256-cbc` applies; used
as a concrete instantiation of the abstract cipher. -/
def pkcs7pad (m : List Nat) : List Nat :=
  let p := 16 - m.length % 16
  m ++ List.replicate p p

/-- Inverse of `pkcs7pad` on well-padded inputs. -/
def pkcs7unpad (c : List Nat) : List Nat :=
  c.take (c.length - c.getLastD 0)

/-- Rows the schema's `ON DELETE CASCADE` constraints remove together with a
project row. -/
def cascadeDeleteProject (projectId : Nat) (s : DBState) : DBState :=
  { s with
    projects := s.projects.filter (fun p => !(p.id == projectId)),
    members := s.members.filter (fun m => !(m.projectId == projectId)),
    projectTokens := s.projectTokens.filter (fun pt => !(pt.projectId == projectId)),
    conversations := s.conversations.filter (fun c => !(c.projectId == projectId)),
    messages := s.messages.filter (fun m =>
      !(m.projectId == projectId ||
        s.conversations.any (fun c => c.id == m.conversationId && c.projectId == projectId))),
    logs := s.logs.filter (fun l => !(l.projectId == projectId)),
    summaries := s.summaries.filter (fun r => !(r.projectId == projectId)) }

/-- `DELETE FROM agents WHERE id IN (...) AND user_id = $2` together with the
schema's cascades on `project_agent_members.agent_id` and
`agent_history_summaries.agent_id`. -/
def cascadeDeleteAgents (agentIds : List Nat) (userId : Nat) (s : DBState) : DBState :=
  let gone : AgentRow → Bool := fun a => agentIds.contains a.id && a.userId == some userId
  let goneIds := (s.agents.filter gone).map (·.id)
  { s with
    agents := s.agents.filter (fun a => !gone a),
    members := s.members.filter (fun m => !(goneIds.contains m.agentId)),
    summaries := s.summaries.filter (fun r => !(goneIds.contains r.agentId)) }

/-- Embeds `projectService.deleteProject`: it first reads the project's
non-System member agent ids, then deletes the project row (cascading), then
deletes those agent rows owned by the caller (cascading). -/
def deleteProject (projectId userId : Nat) (s : DBState) : Except String DBState :=
  let agentIdsToDelete :=
    (s.members.filter (fun m => m.projectId == projectId && !(m.agentId == 0))).map
      (·.agentId)
  match s.projects.find? (fun p => p.id == projectId && p.userId == userId) with
  | none => .error "Project not found or user not authorized."
  | some _ =>
    let s1 := cascadeDeleteProject projectId s
    .ok (if agentIdsToDelete.isEmpty then s1 else cascadeDeleteAgents agentIdsToDelete userId s1)

/-- Database state after `deleteProject`, with the transaction rolled back on
error. -/
def runDeleteProject (projectId userId : Nat) (s : DBState) : DBState :=
  match deleteProject projectId userId s with
  | .ok s' => s'
  | .error _ => s

/-- Whether an `Except` result is a success. -/
def exceptOk {ε α : Type} : Except ε α → Bool
  | .ok _ => true
  | .error _ => false

/-- `SYSTEM.MAX_MESSAGE_LENGTH` of `backend/config/constants.js`. -/
def MAX_MESSAGE_LENGTH : Nat := 2000

/-- Embeds the zod `SendMessageSchema` of `backend/routes/messageRoutes.js`:
`content` must be a string of length at least 1; `type` is an optional,
otherwise unconstrained string.  No maximum length is checked. -/
def sendMessageSchemaAccepts (content : String) : Bool :=
  decide (1 ≤ content.length)

/-- A message body one character longer than `MAX_MESSAGE_LENGTH`. -/
def longContent : String := String.mk (List.replicate 2001 'a')

/-- State of the live-update hub of `backend/services/webSocketService.js`:
the `clients` map (one entry per socket: subscribed project and user) and the
per-project `pendingMessages` queues. -/
structure HubState where
  clients : List (Nat × Nat × Nat)
  pending : List (Nat × List String)
deriving DecidableEq

/-- The queued messages for a project, if a queue exists. -/
def pendingFor (projectId : Nat) (h : HubState) : Option (List String) :=
  (h.pending.find? (fun q => q.1 == projectId)).map (·.2)

/-- Embeds the `join` frame handler of `webSocketService.initialize`: the
socket's `clients` entry is set to the requested project (no ownership check
of any kind), and any queued messages for that project are flushed to the
socket (when it is open) and the queue dropped.  Returns the new hub state and
the list of (socket, payload) sends performed. -/
def handleJoin (wsId userId projectId : Nat) (isOpen : Nat → Bool) (h : HubState) :
    HubState × List (Nat × String) :=
  let h1 : HubState :=
    { h with clients := (h.clients.filter (fun c => !(c.1 == wsId))) ++ [(wsId, projectId, userId)] }
  match pendingFor projectId h1 with
  | some queue =>
    ({ h1 with pending := h1.pending.filter (fun q => !(q.1 == projectId)) },
     if isOpen wsId then queue.map (fun m => (wsId, m)) else [])
  | none => (h1, [])

/-- Embeds `webSocketService.broadcastToProject`: when no client is subscribed
to the project the payload is queued, otherwise it is sent to every open
subscribed socket. -/
def broadcastToProject (projectId : Nat) (msg : String) (isOpen : Nat → Bool)
    (h : HubState) : HubState × List (Nat × String) :=
  let projectClients := h.clients.filter (fun c => c.2.1 == projectId)
  if projectClients.isEmpty then
    let h' : HubState :=
      match h.pending.find? (fun q => q.1 == projectId) with
      | some _ =>
        { h with pending := h.pending.map (fun q =>
            if q.1 = projectId then (q.1, q.2 ++ [msg]) else q) }
      | none => { h with pending := h.pending ++ [(projectId, [msg])] }
    (h', [])
  else (h, (projectClients.filter (fun c => isOpen c.1)).map (fun c => (c.1, msg)))

/-- The empty store. -/
def emptyDB : DBState :=
  { agents := [], projects := [], members := [], tokens := [], projectTokens := [],
    conversations := [], messages := [], logs := [], summaries := [],
    nextAgentId := 1, nextProjectId := 1, nextConvId := 1, nextMessageId := 1,
    nextLogId := 1 }

/-- A running project with a positive budget, used to exercise the budget
operations. -/
def exProjectPos : ProjectRow :=
  { id := 1, userId := 7, title := "p", description := "", systemPrompt := "",
    paused := false, messageLimit := 5, lastActivityAt := 0 }

/-- Store holding just `exProjectPos`. -/
def exStatePos : DBState := { emptyDB with projects := [exProjectPos] }

/-- A running project whose budget is down to its last message. -/
def exProjectLast : ProjectRow := { exProjectPos with messageLimit := 1 }

/-- Store holding just `exProjectLast`. -/
def exStateLast : DBState := { emptyDB with projects := [exProjectLast] }

/-- A conversation between the System agent and agent 2 in project 100. -/
def exSystemConv : ConvRow :=
  { id := 1, projectId := 100, senderId := 0, receiverId := 2, createdAt := 0 }

/-- Store with project 100 and its System conversation. -/
def exStateConv : DBState :=
  { emptyDB with
    projects := [{ exProjectPos with id := 100 }],
    conversations := [exSystemConv],
    nextConvId := 2 }

/-- Two pending messages of project 100 sharing one `created_at` value, ids 1
and 2. -/
def exPendingA : MessageRow :=
  { id := 1, conversationId := 1, projectId := 100, senderId := 0, receiverId := 2,
    content := "x", type := "user", status := "pending", createdAt := 5 }

/-- Second pending message with the same timestamp as `exPendingA`. -/
def exPendingB : MessageRow := { exPendingA with id := 2, content := "y" }

/-- Demo-protection configuration with user 1 owning protected token 5. -/
def exDemoCfg : DemoConfig :=
  { demoUserId := 1, demoTokenId := 5, demoProjectId := 50, snapshotProjectId := 60,
    demoProjectLimit := 20 }

/-- Store where the protected demo token 5 is referenced by a project. -/
def exStateDemoToken : DBState :=
  { emptyDB with
    tokens := [{ id := 5, userId := 1, name := "demo", apiKey := "enc", active := true }],
    projectTokens := [{ projectId := 100, tokenId := some 5 }] }

/-- Store for the token-delete success path: token 6 owned by user 2,
unreferenced. -/
def exStateFreeToken : DBState :=
  { emptyDB with
    tokens := [{ id := 6, userId := 2, name := "t", apiKey := "enc", active := true }] }

/-- Project 100 owned by user 7 whose only non-System member is agent 3, also
owned by user 7; agent 3 is additionally a member of project 200. -/
def exStateProj : DBState :=
  { emptyDB with
    agents := [{ id := 3, userId := some 7, name := "a", role := "r",
                 description := "d", model := "m" }],
    projects := [{ exProjectPos with id := 100 },
                 { exProjectPos with id := 200, title := "q" }],
    members := [{ projectId := 100, agentId := 3, role := "r", prompt := "",
                  canMessageIds := "0", threadId := none },
                { projectId := 100, agentId := 0, role := "system", prompt := "",
                  canMessageIds := "3", threadId := some "system" },
                { projectId := 200, agentId := 3, role := "r", prompt := "",
                  canMessageIds := "", threadId := none }],
    conversations := [{ id := 1, projectId := 100, senderId := 0, receiverId := 3,
                        createdAt := 0 }],
    messages := [{ exPendingA with conversationId := 1, receiverId := 3 }],
    logs := [{ id := 1, projectId := 100, level := "warn", code := some "STALL",
               message := "w" }],
    summaries := [{ id := 1, agentId := 3, projectId := 100, summary := "s",
                    messageCount := 0, summaryCount := 0 },
                  { id := 2, agentId := 3, projectId := 200, summary := "s2",
                    messageCount := 0, summaryCount := 0 }] }

/-- Hub state with one queued payload for project 9 and no subscribers. -/
def exHub : HubState := { clients := [], pending := [(9, ["queued"])] }

/-- Identity-with-padding instantiation of the abstract CBC cipher, used to
witness the encryption round-trip contract. -/
def padCipherE : List Nat → List Nat → List Nat := fun _ m => pkcs7pad m

/-- Inverse of `padCipherE`. -/
def padCipherD : List Nat → List Nat → List Nat := fun _ c => pkcs7unpad c

/-- Hub state with one open subscriber of project 9. -/
def exHubSub : HubState := { clients := [(1, 9, 42)], pending := [] }

/-- First inlined agent of a concrete create-project request; may address the
second agent. -/
def exAgentInputA : AgentInput :=
  { name := "a", role := "r", description := "d", model := "m", prompt := none,
    canMessageIds := [1] }

/-- Second inlined agent of a concrete create-project request; may address the
first agent. -/
def exAgentInputB : AgentInput :=
  { name := "b", role := "r2", description := "d2", model := "m", prompt := some "p",
    canMessageIds := [0] }

/-- An agent row that `deleteProject projectId userId` deletes: a non-System
member of the project whose owner is the caller. -/
def memberAgentOf (projectId userId : Nat) (s : DBState) (a : AgentRow) : Prop :=
  a.userId = some userId ∧
  ∃ m ∈ s.members, m.projectId = projectId ∧ m.agentId ≠ 0 ∧ m.agentId = a.id

/-- An agent id removed from the store by `deleteProject projectId userId`. -/
def agentGone (projectId userId : Nat) (s : DBState) (aid : Nat) : Prop :=
  ∃ a ∈ s.agents, a.id = aid ∧ memberAgentOf projectId userId s a

/-- Postcondition of a successful `deleteProject projectId userId` run from
store `s` to store `s'`: the project and all rows cascading from it are gone,
the project's non-System member agents owned by the caller are gone together
with their memberships and summaries elsewhere, and everything else (other
projects, tokens, other rows) is kept. -/
def deleteProjectPost (projectId userId : Nat) (s s' : DBState) : Prop :=
  (∀ q, q ∈ s'.projects ↔ q ∈ s.projects ∧ q.id ≠ projectId) ∧
  (∀ a, a ∈ s'.agents ↔ a ∈ s.agents ∧ ¬ memberAgentOf projectId userId s a) ∧
  (∀ m, m ∈ s'.members ↔
    m ∈ s.members ∧ m.projectId ≠ projectId ∧ ¬ agentGone projectId userId s m.agentId) ∧
  (∀ c, c ∈ s'.conversations ↔ c ∈ s.conversations ∧ c.projectId ≠ projectId) ∧
  (∀ m, m ∈ s'.messages ↔
    m ∈ s.messages ∧ m.projectId ≠ projectId ∧
    ¬ ∃ c ∈ s.conversations, c.id = m.conversationId ∧ c.projectId = projectId) ∧
  (∀ l, l ∈ s'.logs ↔ l ∈ s.logs ∧ l.projectId ≠ projectId) ∧
  (∀ r, r ∈ s'.summaries ↔
    r ∈ s.summaries ∧ r.projectId ≠ projectId ∧ ¬ agentGone projectId userId s r.agentId) ∧
  (∀ pt, pt ∈ s'.projectTokens ↔ pt ∈ s.projectTokens ∧ pt.projectId ≠ projectId) ∧
  s'.tokens = s.tokens

/-- Two project rows of a duplicate-free table with equal ids are equal. -/
theorem eq_of_pairwise_ids {l : List ProjectRow}
    (h : l.Pairwise fun a b => a.id ≠ b.id) {p q : ProjectRow}
    (hp : p ∈ l) (hq : q ∈ l) (hid : p.id = q.id) : p = q := by
  induction l with
  | nil => cases hp
  | cons x xs ih =>
    rcases List.pairwise_cons.1 h with ⟨hx, hxs⟩
    rcases List.mem_cons.1 hp with hp1 | hp1 <;> rcases List.mem_cons.1 hq with hq1 | hq1
    · exact hp1.trans hq1.symm
    · subst hp1; exact absurd hid (hx q hq1)
    · subst hq1; exact absurd hid.symm (hx p hp1)
    · exact ih hxs hp1 hq1

/-- A fold by a step that preserves a predicate preserves it. -/
theorem foldl_preserves {α β : Type} {P : α → Prop} {f : α → β → α}
    (hf : ∀ a b, P a → P (f a b)) :
    ∀ (l : List β) (a : α), P a → P (l.foldl f a)
  | [], _, ha => ha
  | b :: l, a, ha => foldl_preserves hf l (f a b) (hf a b ha)

/-- Claim C1 (amended): after any decrement-budget call the invariant
"message budget at most 0 implies paused" is preserved — in particular the
decremented project is paused whenever its new budget is at most 0.  (The
set-limit path does not pause, see the counterexample.) -/
theorem decrement_budget_pause_invariant (projectId : Nat) (s : DBState)
    (hids : s.projects.Pairwise fun a b => a.id ≠ b.id)
    (hinv : budgetPauseInv s) :
    budgetPauseInv (decrementMessageLimit projectId s).state := by
  rcases hfind : s.projects.find? (fun p => p.id == projectId) with _ | p
  · simp only [decrementMessageLimit, hfind]
    exact hinv
  · have hpmem : p ∈ s.projects := List.mem_of_find?_eq_some hfind
    have hpid : p.id = projectId := by simpa using List.find?_some hfind
    by_cases hle : p.messageLimit - 1 ≤ 0
    · simp only [decrementMessageLimit, hfind, hle, if_true, pauseProjectInternal]
      intro q hq hql
      rcases List.mem_map.1 hq with ⟨r1, hr1, rfl⟩
      rcases List.mem_map.1 hr1 with ⟨r, hr, rfl⟩
      by_cases hid : r.id = projectId
      · simp [hid]
      · simp only [if_neg hid] at hql ⊢
        exact hinv r hr hql
    · simp only [decrementMessageLimit, hfind, hle, if_false]
      intro q hq hql
      rcases List.mem_map.1 hq with ⟨r, hr, rfl⟩
      by_cases hid : r.id = projectId
      · have hrp : r = p := eq_of_pairwise_ids hids hr hpmem (hid.trans hpid.symm)
        subst hrp
        simp only [if_pos hid] at hql
        exact absurd hql hle
      · simp only [if_neg hid] at hql ⊢
        exact hinv r hr hql

/-- Witness for `decrement_budget_pause_invariant` at a concrete store. -/
theorem decrement_budget_pause_invariant_witness :
    budgetPauseInv (decrementMessageLimit 1 exStateLast).state :=
  decrement_budget_pause_invariant 1 exStateLast (by decide)
    (by unfold budgetPauseInv; decide)

/-- Claim C1 counterexample: setting the message limit to 0 through
`setMessageLimit` does not pause the project, so the invariant "budget at most
0 implies paused" fails right after a set-limit call with limit 0 on a running
project. -/
theorem setlimit_zero_no_pause_counterexample :
    budgetPauseInv exStatePos ∧ ¬ budgetPauseInv (setMessageLimit 1 0 7 exStatePos).1 := by
  constructor
  · unfold budgetPauseInv; decide
  · unfold budgetPauseInv; decide

/-- Claim C2 counterexample: at a concrete project whose budget reaches 0, the
decrement runs as two transactions, not one, and no log row carries the
machine code message-limit (the code written is MESSAGE_LIMIT). -/
theorem decrement_txn_counterexample :
    (decrementMessageLimit 1 exStateLast).txns.length ≠ 1 ∧
    ((decrementMessageLimit 1 exStateLast).txns.any fun t => t.any fun st =>
      match st with
      | SqlStmt.insertLog _ _ c _ => c == some "message-limit"
      | _ => false) = false := by
  constructor
  · decide
  · decide

/-- Claim C2 (amended): the decrement-budget operation decrements the
project's `message_limit` by exactly 1 and returns the new value; when the new
value is at most 0 it also sets `paused` and appends a warn log with machine
code MESSAGE_LIMIT, but it does so in a second, separate transaction after the
single-statement decrement transaction. -/
theorem decrementMessageLimit_contract (projectId : Nat) (s : DBState) (p : ProjectRow)
    (hids : s.projects.Pairwise fun a b => a.id ≠ b.id)
    (hfind : s.projects.find? (fun q => q.id == projectId) = some p) :
    (decrementMessageLimit projectId s).newLimit = some (p.messageLimit - 1) ∧
    (∀ q ∈ (decrementMessageLimit projectId s).state.projects,
      q.id = projectId → q.messageLimit = p.messageLimit - 1) ∧
    (p.messageLimit - 1 ≤ 0 →
      (∀ q ∈ (decrementMessageLimit projectId s).state.projects,
        q.id = projectId → q.paused = true) ∧
      (decrementMessageLimit projectId s).state.logs =
        s.logs ++ [⟨s.nextLogId, projectId, "warn", some "MESSAGE_LIMIT",
          messageLimitLogText⟩] ∧
      (decrementMessageLimit projectId s).txns =
        [[SqlStmt.updateDecrementLimit projectId],
         [SqlStmt.updateSetPaused projectId,
          SqlStmt.insertLog projectId "warn" (some "MESSAGE_LIMIT") messageLimitLogText]]) ∧
    (0 < p.messageLimit - 1 →
      (decrementMessageLimit projectId s).state.logs = s.logs ∧
      (∀ q ∈ (decrementMessageLimit projectId s).state.projects,
        q.id = projectId → q.paused = p.paused) ∧
      (decrementMessageLimit projectId s).txns = [[SqlStmt.updateDecrementLimit projectId]]) := by
  have hpmem : p ∈ s.projects := List.mem_of_find?_eq_some hfind
  have hpid : p.id = projectId := by simpa using List.find?_some hfind
  by_cases hle : p.messageLimit - 1 ≤ 0
  · refine ⟨?_, ?_, fun _ => ⟨?_, ?_, ?_⟩, fun hgt => absurd hle (by omega)⟩
    · simp [decrementMessageLimit, hfind, hle, pauseProjectInternal]
    · intro q hq hqid
      simp only [decrementMessageLimit, hfind, hle, if_true, pauseProjectInternal] at hq
      rcases List.mem_map.1 hq with ⟨r1, hr1, rfl⟩
      rcases List.mem_map.1 hr1 with ⟨r, hr, rfl⟩
      by_cases hid : r.id = projectId
      · have hrp : r = p := eq_of_pairwise_ids hids hr hpmem (hid.trans hpid.symm)
        subst hrp
        simp [hid]
      · simp only [if_neg hid] at hqid
        exact absurd hqid hid
    · intro q hq hqid
      simp only [decrementMessageLimit, hfind, hle, if_true, pauseProjectInternal] at hq
      rcases List.mem_map.1 hq with ⟨r1, hr1, rfl⟩
      rcases List.mem_map.1 hr1 with ⟨r, hr, rfl⟩
      by_cases hid : r.id = projectId
      · simp [hid]
      · simp only [if_neg hid] at hqid
        exact absurd hqid hid
    · simp [decrementMessageLimit, hfind, hle, pauseProjectInternal]
    · simp [decrementMessageLimit, hfind, hle, pauseProjectInternal]
  · refine ⟨?_, ?_, fun h0 => absurd h0 hle, fun _ => ⟨?_, ?_, ?_⟩⟩
    · simp [decrementMessageLimit, hfind, hle]
    · intro q hq hqid
      simp only [decrementMessageLimit, hfind, hle, if_false] at hq
      rcases List.mem_map.1 hq with ⟨r, hr, rfl⟩
      by_cases hid : r.id = projectId
      · have hrp : r = p := eq_of_pairwise_ids hids hr hpmem (hid.trans hpid.symm)
        subst hrp
        simp [hid]
      · simp only [if_neg hid] at hqid
        exact absurd hqid hid
    · simp [decrementMessageLimit, hfind, hle]
    · intro q hq hqid
      simp only [decrementMessageLimit, hfind, hle, if_false] at hq
      rcases List.mem_map.1 hq with ⟨r, hr, rfl⟩
      by_cases hid : r.id = projectId
      · have hrp : r = p := eq_of_pairwise_ids hids hr hpmem (hid.trans hpid.symm)
        subst hrp
        simp [hid]
      · simp only [if_neg hid] at hqid
        exact absurd hqid hid
    · simp [decrementMessageLimit, hfind, hle]

/-- Witness for `decrementMessageLimit_contract` at a concrete store. -/
theorem decrementMessageLimit_contract_witness :
    (decrementMessageLimit 1 exStateLast).newLimit = some (exProjectLast.messageLimit - 1) ∧
    (∀ q ∈ (decrementMessageLimit 1 exStateLast).state.projects,
      q.id = 1 → q.messageLimit = exProjectLast.messageLimit - 1) ∧
    (exProjectLast.messageLimit - 1 ≤ 0 →
      (∀ q ∈ (decrementMessageLimit 1 exStateLast).state.projects,
        q.id = 1 → q.paused = true) ∧
      (decrementMessageLimit 1 exStateLast).state.logs =
        exStateLast.logs ++ [⟨exStateLast.nextLogId, 1, "warn", some "MESSAGE_LIMIT",
          messageLimitLogText⟩] ∧
      (decrementMessageLimit 1 exStateLast).txns =
        [[SqlStmt.updateDecrementLimit 1],
         [SqlStmt.updateSetPaused 1,
          SqlStmt.insertLog 1 "warn" (some "MESSAGE_LIMIT") messageLimitLogText]]) ∧
    (0 < exProjectLast.messageLimit - 1 →
      (decrementMessageLimit 1 exStateLast).state.logs = exStateLast.logs ∧
      (∀ q ∈ (decrementMessageLimit 1 exStateLast).state.projects,
        q.id = 1 → q.paused = exProjectLast.paused) ∧
      (decrementMessageLimit 1 exStateLast).txns = [[SqlStmt.updateDecrementLimit 1]]) :=
  decrementMessageLimit_contract 1 exStateLast exProjectLast (by decide) (by decide)

/-- Claim C3: a user send into an existing conversation whose participants are
the System agent (sender 0) and one other agent inserts a row with sender 0,
receiver the non-System participant, status pending and type user; it bumps
the project's `last_activity_at`, publishes `new_message` for the project, and
nudges the worker for that project. -/
theorem sendMessage_contract (conversationId : Nat) (content : String) (now : Nat)
    (s : DBState) (c : ConvRow)
    (hc : getConversationParticipants conversationId s = some c)
    (hsys : c.senderId = 0) (_hother : c.receiverId ≠ 0) :
    ∃ o, sendMessage conversationId content none now s = some o ∧
      o.message.senderId = 0 ∧
      o.message.receiverId = c.receiverId ∧
      o.message.status = "pending" ∧
      o.message.type = "user" ∧
      o.state.messages = s.messages ++ [o.message] ∧
      (∀ p ∈ o.state.projects, p.id = c.projectId → p.lastActivityAt = now) ∧
      o.events = [Event.newMessage c.projectId o.message] ∧
      o.nudges = [c.projectId] := by
  have hred : sendMessage conversationId content none now s =
      some (createMessage conversationId c.projectId 0 c.receiverId content "user"
        none now s) := by
    simp [sendMessage, hc, hsys]
  refine ⟨_, hred, rfl, rfl, rfl, rfl, rfl, ?_, rfl, ?_⟩
  · intro p hp hpid
    simp only [createMessage] at hp
    rcases List.mem_map.1 hp with ⟨r, hr, rfl⟩
    by_cases hid : r.id = c.projectId
    · simp [hid]
    · simp only [if_neg hid] at hpid
      exact absurd hpid hid
  · simp [createMessage]

/-- Witness for `sendMessage_contract` at a concrete store. -/
theorem sendMessage_contract_witness :
    ∃ o, sendMessage 1 "kickoff" none 3 exStateConv = some o ∧
      o.message.senderId = 0 ∧
      o.message.receiverId = exSystemConv.receiverId ∧
      o.message.status = "pending" ∧
      o.message.type = "user" ∧
      o.state.messages = exStateConv.messages ++ [o.message] ∧
      (∀ p ∈ o.state.projects, p.id = exSystemConv.projectId → p.lastActivityAt = 3) ∧
      o.events = [Event.newMessage exSystemConv.projectId o.message] ∧
      o.nudges = [exSystemConv.projectId] :=
  sendMessage_contract 1 "kickoff" 3 exStateConv exSystemConv (by decide) (by decide)
    (by decide)

/-- `insertConvNoConflict` preserves the conversation invariant when the
inserted pair is sorted. -/
theorem insertConvNoConflict_invariant {projectId senderId receiverId now : Nat}
    {s : DBState} (hsr : senderId ≤ receiverId) (hinv : convInvariant s) :
    convInvariant (insertConvNoConflict projectId senderId receiverId now s) := by
  unfold insertConvNoConflict
  by_cases hdup : (s.conversations.any fun c =>
      c.projectId == projectId && c.senderId == senderId && c.receiverId == receiverId) = true
  · simpa [hdup] using hinv
  · simp only [hdup, if_false]
    constructor
    · intro c hc
      rcases List.mem_append.1 hc with h | h
      · exact hinv.1 c h
      · rw [List.mem_singleton] at h
        subst h
        exact hsr
    · refine List.pairwise_append.2 ⟨hinv.2, List.pairwise_singleton _ _, ?_⟩
      intro a ha b hb
      rw [List.mem_singleton] at hb
      subst hb
      rintro ⟨h1, h2, h3⟩
      exact hdup (List.any_eq_true.2 ⟨a, ha, by simp [h1, h2, h3]⟩)

/-- `processPair` preserves the conversation invariant of the store component. -/
theorem processPair_invariant (projectId memberId now : Nat)
    (acc : DBState × List (Nat × Nat)) (otherId : Nat)
    (hinv : convInvariant acc.1) :
    convInvariant (processPair projectId memberId now acc otherId).1 := by
  unfold processPair
  by_cases hmem : (min memberId otherId, max memberId otherId) ∈ acc.2
  · simpa [hmem] using hinv
  · simpa [hmem] using insertConvNoConflict_invariant min_le_max hinv

/-- `processMember` preserves the conversation invariant of the store
component. -/
theorem processMember_invariant (projectId : Nat) (indexToId : Nat → Option Nat)
    (now : Nat) (acc : DBState × List (Nat × Nat)) (member : MemberSpec)
    (hinv : convInvariant acc.1) :
    convInvariant (processMember projectId indexToId now acc member).1 := by
  unfold processMember
  refine foldl_preserves (P := fun a : DBState × List (Nat × Nat) => convInvariant a.1)
    ?_ _ _ ?_
  · intro a b ha
    exact processPair_invariant projectId member.agentId now a b ha
  · exact hinv

/-- A store satisfying the conversation invariant has at most one conversation
row per project and unordered participant pair. -/
theorem atMostOnePerPair_of_invariant {s : DBState} (h : convInvariant s) :
    atMostOnePerPair s := by
  have hsym : Symmetric fun a b : ConvRow =>
      ¬(a.projectId = b.projectId ∧ a.senderId = b.senderId ∧
        a.receiverId = b.receiverId) := by
    intro a b hab hcon
    exact hab ⟨hcon.1.symm, hcon.2.1.symm, hcon.2.2.symm⟩
  intro a ha b hb hpid hpair
  by_contra hne
  have hR := List.Pairwise.forall hsym h.2 ha hb hne
  rcases hpair with ⟨h1, h2⟩ | ⟨h1, h2⟩
  · exact hR ⟨hpid, h1, h2⟩
  · have hA := h.1 a ha
    have hB := h.1 b hb
    have hsr : a.senderId = b.senderId := by omega
    have hrr : a.receiverId = b.receiverId := by omega
    exact hR ⟨hpid, hsr, hrr⟩

/-- `runCreateConversation` preserves the conversation invariant. -/
theorem runCreateConversation_invariant (userId projectId receiverId now : Nat)
    (s : DBState) (hinv : convInvariant s) :
    convInvariant (runCreateConversation userId projectId receiverId now s) := by
  unfold runCreateConversation createConversation
  by_cases hle : userId ≤ receiverId
  · by_cases hdup : (s.conversations.any fun c =>
        c.projectId == projectId && c.senderId == userId &&
        c.receiverId == receiverId) = true
    · simpa [hle, hdup] using hinv
    · simp only [hle, if_true, hdup, if_false]
      constructor
      · intro c hc
        rcases List.mem_append.1 hc with hcc | hcc
        · exact hinv.1 c hcc
        · rw [List.mem_singleton] at hcc
          subst hcc
          exact hle
      · refine List.pairwise_append.2 ⟨hinv.2, List.pairwise_singleton _ _, ?_⟩
        intro a ha b hb
        rw [List.mem_singleton] at hb
        subst hb
        rintro ⟨h1, h2, h3⟩
        exact hdup (List.any_eq_true.2 ⟨a, ha, by simp [h1, h2, h3]⟩)
  · simpa [hle] using hinv

/-- `runCreateProject` preserves the conversation invariant. -/
theorem runCreateProject_invariant (userId : Nat)
    (title description systemPrompt : String) (agents : List AgentInput)
    (tokenId : Option Nat) (now : Nat) (s : DBState) (hinv : convInvariant s) :
    convInvariant
      (runCreateProject userId title description systemPrompt agents tokenId now s) := by
  unfold runCreateProject createProjectWithMembers
  by_cases hdup : (s.projects.any fun p => p.userId == userId && p.title == title) = true
  · simpa [hdup] using hinv
  · simp only [hdup, if_false]
    refine foldl_preserves (P := fun a : DBState × List (Nat × Nat) => convInvariant a.1)
      (fun a b ha => processMember_invariant _ _ _ a b ha) _ _ ?_
    cases tokenId <;> exact hinv

/-- Claim C4: at most one conversation row exists per project and unordered
member pair, with the pair stored sorted; the invariant is preserved both by
project creation (which creates one conversation per allowed pair, guarded by
the in-memory pair set and the ON CONFLICT DO NOTHING insert) and by
user-initiated conversation creation (whose constraint-violating inserts roll
back). -/
theorem conversation_uniqueness (s : DBState) (userId : Nat)
    (title description systemPrompt : String) (agents : List AgentInput)
    (tokenId : Option Nat) (now : Nat) (uid2 pid2 rid2 now2 : Nat)
    (hinv : convInvariant s) :
    (convInvariant
       (runCreateProject userId title description systemPrompt agents tokenId now s) ∧
     atMostOnePerPair
       (runCreateProject userId title description systemPrompt agents tokenId now s)) ∧
    (convInvariant (runCreateConversation uid2 pid2 rid2 now2 s) ∧
     atMostOnePerPair (runCreateConversation uid2 pid2 rid2 now2 s)) := by
  have h1 := runCreateProject_invariant userId title description systemPrompt agents
    tokenId now s hinv
  have h2 := runCreateConversation_invariant uid2 pid2 rid2 now2 s hinv
  exact ⟨⟨h1, atMostOnePerPair_of_invariant h1⟩, ⟨h2, atMostOnePerPair_of_invariant h2⟩⟩

/-- Witness for `conversation_uniqueness` at a concrete request. -/
theorem conversation_uniqueness_witness :
    (convInvariant
       (runCreateProject 7 "t" "d" "sp" [exAgentInputA, exAgentInputB] none 1 emptyDB) ∧
     atMostOnePerPair
       (runCreateProject 7 "t" "d" "sp" [exAgentInputA, exAgentInputB] none 1 emptyDB)) ∧
    (convInvariant (runCreateConversation 0 1 2 1 emptyDB) ∧
     atMostOnePerPair (runCreateConversation 0 1 2 1 emptyDB)) :=
  conversation_uniqueness emptyDB 7 "t" "d" "sp" [exAgentInputA, exAgentInputB] none 1
    0 1 2 1 (by unfold convInvariant convPairSorted convPairUnique; exact ⟨by decide, by decide⟩)

/-- Claim C5 counterexample: a result holding the two equal-timestamp pending
rows in descending id order satisfies everything the pending-queue SQL
(filter by project and status, ORDER BY created_at ASC) constrains, so the
ascending-id tie-break the claim asserts is not guaranteed by the query. -/
theorem pending_tiebreak_counterexample :
    pendingResultOk [exPendingA, exPendingB] 100 [exPendingB, exPendingA] ∧
    ¬ ([exPendingB, exPendingA].Pairwise fun a b =>
        a.createdAt = b.createdAt → a.id ≤ b.id) := by
  constructor
  · constructor
    · decide
    · decide
  · decide

/-- Claim C5 (amended): the pending-queue returns exactly the project's
pending messages, sorted by created_at ascending; the relative order of
messages with equal created_at is not specified by the query. -/
theorem getPendingMessages_valid (projectId : Nat) (s : DBState) :
    pendingResultOk s.messages projectId (getPendingMessages projectId s) := by
  constructor
  · exact List.perm_insertionSort createdLe _
  · exact List.sorted_insertionSort createdLe _

/-- Claim C6 counterexample: when the demo user deletes the protected demo
token while a project references it, the operation fails forbidden (the
controller's protected-demo check runs first), not with the token-in-use
error the claim prescribes for referenced tokens. -/
theorem deleteToken_precedence_counterexample :
    (exStateDemoToken.projectTokens.any fun pt => pt.tokenId == some 5) = true ∧
    (deleteTokenOp exDemoCfg 5 1 exStateDemoToken).1 = DeleteTokenResult.forbidden ∧
    (deleteTokenOp exDemoCfg 5 1 exStateDemoToken).1 ≠ DeleteTokenResult.inUse := by
  refine ⟨by decide, by decide, by decide⟩

/-- Claim C6 (amended): the protected-demo check takes precedence: deleting
the protected demo token fails forbidden (no writes) even when a project
references it; otherwise a referenced token fails with token-in-use;
otherwise the caller's matching row is deleted; every non-deleted outcome
leaves the store unchanged. -/
theorem deleteTokenOp_contract (cfg : DemoConfig) (tokenId userId : Nat) (s : DBState) :
    (isProtectedDemoToken cfg userId tokenId = true →
      deleteTokenOp cfg tokenId userId s = (DeleteTokenResult.forbidden, s)) ∧
    (isProtectedDemoToken cfg userId tokenId = false →
      (s.projectTokens.any fun pt => pt.tokenId == some tokenId) = true →
      deleteTokenOp cfg tokenId userId s = (DeleteTokenResult.inUse, s)) ∧
    (isProtectedDemoToken cfg userId tokenId = false →
      (s.projectTokens.any fun pt => pt.tokenId == some tokenId) = false →
      (s.tokens.any fun t => t.id == tokenId && t.userId == userId) = true →
      (deleteTokenOp cfg tokenId userId s).1 = DeleteTokenResult.deleted ∧
      (deleteTokenOp cfg tokenId userId s).2.tokens =
        s.tokens.filter (fun t => !(t.id == tokenId && t.userId == userId)) ∧
      (deleteTokenOp cfg tokenId userId s).2.projectTokens = s.projectTokens) ∧
    ((deleteTokenOp cfg tokenId userId s).1 ≠ DeleteTokenResult.deleted →
      (deleteTokenOp cfg tokenId userId s).2 = s) := by
  refine ⟨fun hp => ?_, fun hp hu => ?_, fun hp hu ho => ?_, fun hnd => ?_⟩
  · simp [deleteTokenOp, hp]
  · simp [deleteTokenOp, hp, hu]
  · simp [deleteTokenOp, hp, hu, ho]
  · by_cases hp : isProtectedDemoToken cfg userId tokenId = true
    · simp [deleteTokenOp, hp]
    · by_cases hu : (s.projectTokens.any fun pt => pt.tokenId == some tokenId) = true
      · simp [deleteTokenOp, hp, hu]
      · by_cases ho : (s.tokens.any fun t => t.id == tokenId && t.userId == userId) = true
        · exact absurd (by simp [deleteTokenOp, hp, hu, ho]) hnd
        · simp [deleteTokenOp, hp, hu, ho]

/-- Witness for `deleteTokenOp_contract`: the forbidden branch at the
protected demo token. -/
theorem deleteTokenOp_contract_witness :
    deleteTokenOp exDemoCfg 5 1 exStateDemoToken =
      (DeleteTokenResult.forbidden, exStateDemoToken) :=
  (deleteTokenOp_contract exDemoCfg 5 1 exStateDemoToken).1 (by decide)

/-- Hex digits are never the colon separator. -/
theorem hexDigit_ne_colon (n : Nat) : hexDigit n ≠ ':' := by
  by_cases h : n < 16
  · interval_cases n <;> decide
  · unfold hexDigit
    rw [List.getD_eq_default]
    · decide
    · rw [show ("0123456789abcdef".toList).length = 16 from by decide]
      omega

/-- The colon never occurs in a hex encoding. -/
theorem colon_not_mem_hexEncode (bs : List Nat) : ':' ∉ hexEncode bs := by
  intro hmem
  unfold hexEncode at hmem
  rcases List.mem_flatten.1 hmem with ⟨l, hl, hcl⟩
  rcases List.mem_map.1 hl with ⟨b, _, rfl⟩
  unfold byteToHex at hcl
  rcases List.mem_cons.1 hcl with h | h
  · exact hexDigit_ne_colon _ h.symm
  · rw [List.mem_singleton] at h
    exact hexDigit_ne_colon _ h.symm

/-- Round trip for a single hex digit. -/
theorem hexDigitVal_hexDigit : ∀ n < 16, hexDigitVal (hexDigit n) = some n := by decide

/-- `hexDecode` inverts `hexEncode` on byte lists. -/
theorem hexDecode_hexEncode (bs : List Nat) (hbs : ∀ b ∈ bs, b < 256) :
    hexDecode (hexEncode bs) = some bs := by
  induction bs with
  | nil => rfl
  | cons b bs ih =>
    have hb : b < 256 := hbs b (List.mem_cons.2 (Or.inl rfl))
    have hdiv : b / 16 < 16 := by omega
    have hmod : b % 16 < 16 := by omega
    have ih' := ih fun x hx => hbs x (List.mem_cons.2 (Or.inr hx))
    have e1 : hexEncode (b :: bs) =
        hexDigit (b / 16) :: hexDigit (b % 16) :: hexEncode bs := rfl
    rw [e1]
    have e2 : hexDecode (hexDigit (b / 16) :: hexDigit (b % 16) :: hexEncode bs) =
        match hexDigitVal (hexDigit (b / 16)), hexDigitVal (hexDigit (b % 16)),
          hexDecode (hexEncode bs) with
        | some h, some l, some bs2 => some ((16 * h + l) :: bs2)
        | _, _, _ => none := rfl
    rw [e2, hexDigitVal_hexDigit _ hdiv, hexDigitVal_hexDigit _ hmod, ih']
    have : 16 * (b / 16) + b % 16 = b := Nat.div_add_mod b 16
    simp [this]

/-- `splitOnColon` on a colon-free list yields that list alone. -/
theorem splitOnColon_no_colon (l : List Char) (hl : ':' ∉ l) : splitOnColon l = [l] := by
  induction l with
  | nil => rfl
  | cons c rest ih =>
    have hc : ¬(c = ':') := fun h => hl (List.mem_cons.2 (Or.inl h.symm))
    have hrest : ':' ∉ rest := fun h => hl (List.mem_cons.2 (Or.inr h))
    simp [splitOnColon, hc, ih hrest]

/-- `splitOnColon` splits at the first colon. -/
theorem splitOnColon_append (a b : List Char) (ha : ':' ∉ a) :
    splitOnColon (a ++ ':' :: b) = a :: splitOnColon b := by
  induction a with
  | nil => simp [splitOnColon]
  | cons c rest ih =>
    have hc : ¬(c = ':') := fun h => ha (List.mem_cons.2 (Or.inl h.symm))
    have hrest : ':' ∉ rest := fun h => ha (List.mem_cons.2 (Or.inr h))
    simp [splitOnColon, hc, ih hrest]

/-- A hex encoding is twice as long as its byte list. -/
theorem hexEncode_length (bs : List Nat) : (hexEncode bs).length = 2 * bs.length := by
  induction bs with
  | nil => rfl
  | cons b bs ih =>
    have e1 : hexEncode (b :: bs) =
        hexDigit (b / 16) :: hexDigit (b % 16) :: hexEncode bs := rfl
    rw [e1]
    simp only [List.length_cons, ih, List.length_cons]
    omega

/-- Claim C7: decrypt composed with encrypt is the identity on token secrets,
and the stored ciphertext differs from the plaintext.  The aes-256-cbc library
cipher at the fixed process key is abstracted by `E`/`D` together with its
contract: `D` inverts `E` at this input, outputs are bytes, and the output
length obeys the PKCS#7 law (padded to the next 16-byte block). -/
theorem token_encryption_roundtrip
    (E D : List Nat → List Nat → List Nat) (iv : List Nat) (K : List Char)
    (hivlen : iv.length = 16) (hivbytes : ∀ b ∈ iv, b < 256)
    (hEbytes : ∀ b ∈ E iv (K.map Char.toNat), b < 256)
    (hD : D iv (E iv (K.map Char.toNat)) = K.map Char.toNat)
    (hElen : (E iv (K.map Char.toNat)).length = 16 * (K.length / 16 + 1)) :
    decryptStr D (encryptStr E iv (K.map Char.toNat)) = some (K.map Char.toNat) ∧
    encryptStr E iv (K.map Char.toNat) ≠ K := by
  constructor
  · unfold encryptStr decryptStr
    rw [splitOnColon_append _ _ (colon_not_mem_hexEncode iv),
        splitOnColon_no_colon _ (colon_not_mem_hexEncode _)]
    simp only [hexDecode_hexEncode iv hivbytes, hexDecode_hexEncode _ hEbytes, hD]
  · intro hEq
    have hlen := congrArg List.length hEq
    unfold encryptStr at hlen
    simp only [List.length_append, List.length_cons, hexEncode_length, hivlen, hElen,
      List.length_map] at hlen
    omega

/-- Witness for `token_encryption_roundtrip`: the identity-with-padding cipher
on the secret "sk" with a zero IV. -/
theorem token_encryption_roundtrip_witness :
    decryptStr padCipherD (encryptStr padCipherE (List.replicate 16 0)
      (['s', 'k'].map Char.toNat)) = some (['s', 'k'].map Char.toNat) ∧
    encryptStr padCipherE (List.replicate 16 0) (['s', 'k'].map Char.toNat) ≠
      ['s', 'k'] :=
  token_encryption_roundtrip padCipherE padCipherD (List.replicate 16 0) ['s', 'k']
    (by decide) (by decide) (by decide) (by decide) (by decide)

/-- Claim C8 counterexample: deleting project 100 (owned by user 7) succeeds
and removes the member agent row 3 from the `agents` table, contradicting the
claim that agent definitions are not deleted. -/
theorem deleteProject_agent_counterexample :
    exceptOk (deleteProject 100 7 exStateProj) = true ∧
    (exStateProj.agents.any fun a => a.id == 3) = true ∧
    ((runDeleteProject 100 7 exStateProj).agents.any fun a => a.id == 3) = false := by
  refine ⟨by decide, by decide, by decide⟩

/-- Membership in the agent-id list `deleteProject` collects before deleting. -/
theorem mem_agentIdsToDelete (projectId : Nat) (s : DBState) (x : Nat) :
    (x ∈ (s.members.filter fun m => m.projectId == projectId && !(m.agentId == 0)).map
        (·.agentId)) ↔
      ∃ m ∈ s.members, m.projectId = projectId ∧ m.agentId ≠ 0 ∧ m.agentId = x := by
  simp only [List.mem_map, List.mem_filter, Bool.and_eq_true, beq_iff_eq,
    Bool.not_eq_true', beq_eq_false_iff_ne]
  tauto

/-- The deletion predicate of the agent-cascade phase coincides with
`memberAgentOf`. -/
theorem gone_iff_memberAgentOf (projectId userId : Nat) (s : DBState) (a : AgentRow) :
    ((((s.members.filter fun m => m.projectId == projectId && !(m.agentId == 0)).map
        (·.agentId)).contains a.id && a.userId == some userId) = true) ↔
      memberAgentOf projectId userId s a := by
  rw [Bool.and_eq_true]
  unfold memberAgentOf
  rw [show ∀ (l : List Nat) (x : Nat), l.contains x = true ↔ x ∈ l from
    fun l x => List.elem_iff]
  constructor
  · rintro ⟨hmem, hu⟩
    refine ⟨by simpa using hu, ?_⟩
    exact (mem_agentIdsToDelete projectId s a.id).1 (by simpa using hmem)
  · rintro ⟨hu, hex⟩
    refine ⟨?_, by simpa using hu⟩
    simpa using (mem_agentIdsToDelete projectId s a.id).2 hex

/-- Bool `contains` as membership on id lists. -/
theorem contains_iff_mem_nat (l : List Nat) (x : Nat) : l.contains x = true ↔ x ∈ l :=
  List.elem_iff

/-- Membership in the id list of agents removed by the agent-cascade phase. -/
theorem mem_goneIds_iff (projectId userId : Nat) (s : DBState) (x : Nat) :
    (x ∈ ((s.agents.filter fun a =>
        ((((s.members.filter fun m => m.projectId == projectId && !(m.agentId == 0)).map
          (·.agentId)).contains a.id) && a.userId == some userId)).map (·.id))) ↔
      agentGone projectId userId s x := by
  unfold agentGone
  simp only [List.mem_map, List.mem_filter]
  constructor
  · rintro ⟨a, ⟨ha, hg⟩, rfl⟩
    exact ⟨a, ha, rfl, (gone_iff_memberAgentOf projectId userId s a).1 hg⟩
  · rintro ⟨a, ha, rfl, hma⟩
    exact ⟨a, ⟨ha, (gone_iff_memberAgentOf projectId userId s a).2 hma⟩, rfl⟩

/-- After `cascadeDeleteProject` alone (no member agents to delete), the
delete postcondition holds. -/
theorem deleteProjectPost_noAgents (projectId userId : Nat) (s : DBState)
    (hno : ∀ m ∈ s.members, ¬(m.projectId = projectId ∧ m.agentId ≠ 0)) :
    deleteProjectPost projectId userId s (cascadeDeleteProject projectId s) := by
  have hnoMA : ∀ a : AgentRow, ¬ memberAgentOf projectId userId s a := by
    rintro a ⟨-, m, hm, hpid, hz, -⟩
    exact hno m hm ⟨hpid, hz⟩
  have hnoAG : ∀ x : Nat, ¬ agentGone projectId userId s x := by
    rintro x ⟨a, -, -, hma⟩
    exact hnoMA a hma
  unfold deleteProjectPost cascadeDeleteProject
  refine ⟨?_, ?_, ?_, ?_, ?_, ?_, ?_, ?_, rfl⟩
  · intro q; simp [List.mem_filter]
  · intro a; simpa using fun _ => hnoMA a
  · intro m; simp [List.mem_filter, hnoAG m.agentId]
  · intro c; simp [List.mem_filter]
  · intro m
    simp [List.mem_filter, List.any_eq_true]
  · intro l; simp [List.mem_filter]
  · intro r; simp [List.mem_filter, hnoAG r.agentId]
  · intro pt; simp [List.mem_filter]

/-- After the agent-cascade phase of `deleteProject`, the delete postcondition
holds. -/
theorem deleteProjectPost_cascadeAgents (projectId userId : Nat) (s : DBState) :
    deleteProjectPost projectId userId s
      (cascadeDeleteAgents
        ((s.members.filter fun m => m.projectId == projectId && !(m.agentId == 0)).map
          (·.agentId))
        userId (cascadeDeleteProject projectId s)) := by
  unfold deleteProjectPost cascadeDeleteAgents cascadeDeleteProject
  refine ⟨?_, ?_, ?_, ?_, ?_, ?_, ?_, ?_, rfl⟩
  · intro q; simp [List.mem_filter]
  · intro a
    simp only [List.mem_filter]
    rw [Bool.not_eq_true', Bool.eq_false_iff, Ne, gone_iff_memberAgentOf]
  · intro m
    simp only [List.mem_filter, Bool.not_eq_true', Bool.eq_false_iff, Ne,
      contains_iff_mem_nat, mem_goneIds_iff, beq_iff_eq, beq_eq_false_iff_ne]
    tauto
  · intro c; simp [List.mem_filter]
  · intro m
    simp [List.mem_filter, List.any_eq_true]
  · intro l; simp [List.mem_filter]
  · intro r
    simp only [List.mem_filter, Bool.not_eq_true', Bool.eq_false_iff, Ne,
      contains_iff_mem_nat, mem_goneIds_iff, beq_iff_eq, beq_eq_false_iff_ne]
    tauto
  · intro pt; simp [List.mem_filter]

/-- Claim C8 (amended): a successful project deletion removes the project
together with its memberships, conversations, messages, logs, summaries and
token binding, and ALSO deletes the project's non-System member agent rows
owned by the caller, together with those agents' memberships and summaries in
other projects; users, tokens and all other rows are untouched. -/
theorem deleteProject_contract (projectId userId : Nat) (s : DBState) (p : ProjectRow)
    (hfind : s.projects.find? (fun q => q.id == projectId && q.userId == userId) = some p) :
    ∃ s', deleteProject projectId userId s = .ok s' ∧
      deleteProjectPost projectId userId s s' := by
  simp only [deleteProject, hfind]
  refine ⟨_, rfl, ?_⟩
  by_cases hempty :
      ((s.members.filter fun m => m.projectId == projectId && !(m.agentId == 0)).map
        (·.agentId)).isEmpty = true
  · rw [if_pos hempty]
    refine deleteProjectPost_noAgents projectId userId s ?_
    rw [List.isEmpty_iff, List.map_eq_nil_iff, List.filter_eq_nil_iff] at hempty
    intro m hm ⟨hpid, hz⟩
    exact hempty m hm (by simp [hpid, hz])
  · rw [if_neg hempty]
    exact deleteProjectPost_cascadeAgents projectId userId s

/-- Witness for `deleteProject_contract` at a concrete store. -/
theorem deleteProject_contract_witness :
    ∃ s', deleteProject 100 7 exStateProj = .ok s' ∧
      deleteProjectPost 100 7 exStateProj s' :=
  deleteProject_contract 100 7 exStateProj { exProjectPos with id := 100 } (by decide)

/-- Claim C9 (code bug, evaluated at the failing input): the boundary schema
for message sends only requires a non-empty content string — a content of
length 2001 is accepted even though it exceeds the declared per-message
maximum MAX_MESSAGE_LENGTH = 2000, which no code path enforces. -/
theorem overlong_message_accepted :
    sendMessageSchemaAccepts longContent = true ∧
    MAX_MESSAGE_LENGTH < longContent.length := by
  have hlen : longContent.length = 2001 := by
    show (List.replicate 2001 'a').length = 2001
    rw [List.length_replicate]
  constructor
  · unfold sendMessageSchemaAccepts
    rw [decide_eq_true_eq, hlen]
    omega
  · unfold MAX_MESSAGE_LENGTH
    rw [hlen]
    omega

/-- Claim C10: a join frame registers the socket as a subscriber of the
requested project for any user (no ownership check appears anywhere in the
handler), flushes the project's queued events to the open socket and clears
the queue, and any broadcast performed while the socket is subscribed and
open delivers the payload to it. -/
theorem hub_join_and_broadcast (h h2 : HubState) (wsId userId projectId : Nat)
    (isOpen : Nat → Bool) (msg : String)
    (hopen : isOpen wsId = true)
    (hsub : (wsId, projectId, userId) ∈ h2.clients) :
    ((wsId, projectId, userId) ∈ (handleJoin wsId userId projectId isOpen h).1.clients) ∧
    ((handleJoin wsId userId projectId isOpen h).2 =
      ((pendingFor projectId h).getD []).map fun m => (wsId, m)) ∧
    (pendingFor projectId (handleJoin wsId userId projectId isOpen h).1 = none) ∧
    ((wsId, msg) ∈ (broadcastToProject projectId msg isOpen h2).2) := by
  refine ⟨?_, ?_, ?_, ?_⟩
  · unfold handleJoin
    rcases hq : pendingFor projectId
        { h with clients :=
            (h.clients.filter fun c => !(c.1 == wsId)) ++ [(wsId, projectId, userId)] }
      with _ | queue
    · simp only [hq]
      exact List.mem_append.2 (Or.inr (List.mem_singleton.2 rfl))
    · simp only [hq]
      exact List.mem_append.2 (Or.inr (List.mem_singleton.2 rfl))
  · unfold handleJoin
    have hpf : pendingFor projectId
        { h with clients :=
            (h.clients.filter fun c => !(c.1 == wsId)) ++ [(wsId, projectId, userId)] } =
        pendingFor projectId h := rfl
    rcases hq : pendingFor projectId h with _ | queue
    · simp [hpf, hq]
    · simp [hpf, hq, hopen]
  · unfold handleJoin
    have hpf : pendingFor projectId
        { h with clients :=
            (h.clients.filter fun c => !(c.1 == wsId)) ++ [(wsId, projectId, userId)] } =
        pendingFor projectId h := rfl
    rcases hq : pendingFor projectId h with _ | queue
    · simp only [hpf, hq]
    · simp only [hpf, hq]
      unfold pendingFor
      rw [Option.map_eq_none', List.find?_eq_none]
      intro q hqmem
      rcases List.mem_filter.1 hqmem with ⟨-, hkeep⟩
      simpa using hkeep
  · unfold broadcastToProject
    have hne : (h2.clients.filter fun c => c.2.1 == projectId).isEmpty = false := by
      rw [List.isEmpty_eq_false_iff_exists_mem]
      exact ⟨(wsId, projectId, userId), List.mem_filter.2 ⟨hsub, by simp⟩⟩
    simp only [hne, Bool.false_eq_true, if_false]
    exact List.mem_map.2
      ⟨(wsId, projectId, userId),
       List.mem_filter.2 ⟨List.mem_filter.2 ⟨hsub, by simp⟩, hopen⟩, rfl⟩

/-- Witness for `hub_join_and_broadcast` at a concrete hub state. -/
theorem hub_join_and_broadcast_witness :
    ((1, 9, 42) ∈ (handleJoin 1 42 9 (fun _ => true) exHub).1.clients) ∧
    ((handleJoin 1 42 9 (fun _ => true) exHub).2 =
      ((pendingFor 9 exHub).getD []).map fun m => (1, m)) ∧
    (pendingFor 9 (handleJoin 1 42 9 (fun _ => true) exHub).1 = none) ∧
    ((1, "m") ∈ (broadcastToProject 9 "m" (fun _ => true) exHubSub).2) :=
  hub_join_and_broadcast exHub exHubSub 1 42 9 (fun _ => true) "m" (by decide) (by decide)

end Teami
